import Mathlib

/-!
Shallow embedding of the local caching and storage-budget layer of the
Cosmos-Connect repository, together with its request rate limiter.

Embedded source:
  * `src/js/caching.js` — class `AdvancedCacheManager` (the bounded
    priority cache over `localStorage`);
  * `src/unnamed/part_001` — class `RateLimiter` (the sliding-window
    request gate).

Modelling conventions:
  * Wall-clock time (`Date.now()`) is passed explicitly as a `now`
    argument (`Nat` milliseconds for the cache, `Int` for the limiter).
  * `localStorage` is a finite association list from keys to stored
    cache entries plus a byte `quota`; `setItem` fails (raises
    `QuotaExceededError`, modelled as `none`) exactly when the written
    state would exceed the quota, and `removeItem`/`getItem` never fail.
    Entries written by the cache always parse back, so the store holds
    structured entries rather than raw JSON strings.
  * A JavaScript value to be cached is abstracted to the byte size of
    its JSON serialization: `Option Nat`, where `none` models a value on
    which `JSON.stringify` throws (e.g. a cyclic object) and `some n` a
    value whose serialization is an `n`-byte string.  No verified claim
    inspects the contents of a cached value, only hit/miss and sizes.
  * JavaScript truthiness defaulting (`x || d`) is modelled by explicit
    helpers: `0` and the empty string are falsy.
  * `Array.prototype.sort` with a comparator is stable in every engine
    covered by ES2019; it is modelled by `List.insertionSort` on the
    comparator's order, which is the stable sort of that order.
-/

/-- JavaScript `s.startsWith(pat)`. -/
def jsStartsWith (s pat : String) : Bool :=
  pat.data.isPrefixOf s.data

/-- JavaScript `s.includes(pat)` (substring containment). -/
def jsIncludes (s pat : String) : Bool :=
  decide (pat.data <:+: s.data)

/-- JavaScript `v || d` for an optionally-supplied number: `0` is falsy,
so both an absent field and an explicit `0` fall back to the default. -/
def jsOrNum (v : Option Nat) (d : Nat) : Nat :=
  match v with
  | some n => if n = 0 then d else n
  | none => d

/-- JavaScript `v || d` for an optionally-supplied string: the empty
string is falsy. -/
def jsOrStr (v : Option String) (d : String) : String :=
  match v with
  | some s => if s = "" then d else s
  | none => d

/-- One cache entry as persisted by `AdvancedCacheManager.set`
(`src/js/caching.js` lines 28-37): field for field the object literal,
with the `data` payload and the `metadata` object abstracted to the byte
sizes of their JSON serializations. `lastAccessed` is absent until the
first successful read. -/
structure CacheEntry where
  dataBytes : Nat
  timestamp : Nat
  expires : Nat
  priority : Nat
  size : Nat
  version : String
  tags : List String
  metadataBytes : Nat
  lastAccessed : Option Nat := none
deriving DecidableEq

/-- Byte size of a JSON string literal holding `s` (assuming `s` needs
no escaping, which holds for every tag used in the repository). -/
def jsonStrBytes (s : String) : Nat :=
  ("\"" ++ s ++ "\"").utf8ByteSize

/-- Byte size of the JSON array serializing the `tags` field. -/
def tagsJsonBytes (ts : List String) : Nat :=
  ("[" ++ String.intercalate "," (ts.map (fun t => "\"" ++ t ++ "\"")) ++ "]").utf8ByteSize

/-- Decimal-digit count of a natural number, the byte size of its JSON
serialization. -/
def natDigitsBytes (n : Nat) : Nat :=
  (toString n).length

/-- Byte size of `JSON.stringify` of a stored entry, i.e. of
`new Blob([value]).size` for the stored value string: the JSON object
skeleton in the field order of the object literal in `set`, with
`lastAccessed` appended after the first read rewrites the entry. -/
def entryJsonSize (e : CacheEntry) : Nat :=
  ("\x7b\"data\":").utf8ByteSize + e.dataBytes
    + (",\"timestamp\":").utf8ByteSize + natDigitsBytes e.timestamp
    + (",\"expires\":").utf8ByteSize + natDigitsBytes e.expires
    + (",\"priority\":").utf8ByteSize + natDigitsBytes e.priority
    + (",\"size\":").utf8ByteSize + natDigitsBytes e.size
    + (",\"version\":").utf8ByteSize + jsonStrBytes e.version
    + (",\"tags\":").utf8ByteSize + tagsJsonBytes e.tags
    + (",\"metadata\":").utf8ByteSize + e.metadataBytes
    + (match e.lastAccessed with
       | none => 0
       | some t => (",\"lastAccessed\":").utf8ByteSize + natDigitsBytes t)
    + ("\x7d").utf8ByteSize

/-- The browser `localStorage`: an association list of key/entry pairs
(key order = insertion order) with a byte quota enforced on writes. -/
structure Storage where
  quota : Nat
  items : List (String × CacheEntry)
deriving DecidableEq

/-- Bytes a stored pair occupies (key plus serialized value). -/
def storedBytes (kv : String × CacheEntry) : Nat :=
  kv.1.utf8ByteSize + entryJsonSize kv.2

/-- Total bytes of a stored item list, for the quota check. -/
def usedBytes (items : List (String × CacheEntry)) : Nat :=
  (items.map storedBytes).sum

/-- Replace the value at `k`, or append the pair when `k` is absent
(the `localStorage.setItem` key semantics). -/
def storeUpdate : List (String × CacheEntry) → String → CacheEntry → List (String × CacheEntry)
  | [], k, e => [(k, e)]
  | kv :: rest, k, e => if kv.1 = k then (k, e) :: rest else kv :: storeUpdate rest k e

/-- Look up the value stored at `k`. -/
def storeGet : List (String × CacheEntry) → String → Option CacheEntry
  | [], _ => none
  | kv :: rest, k => if kv.1 = k then some kv.2 else storeGet rest k

/-- JavaScript `localStorage.setItem`: `none` models the
`QuotaExceededError` thrown when the write would exceed the quota, in
which case the store is unchanged. -/
def Storage.setItem (st : Storage) (k : String) (e : CacheEntry) : Option Storage :=
  let items' := storeUpdate st.items k e
  if usedBytes items' ≤ st.quota then some { st with items := items' } else none

/-- JavaScript `localStorage.getItem`. -/
def Storage.getItem (st : Storage) (k : String) : Option CacheEntry :=
  storeGet st.items k

/-- JavaScript `localStorage.removeItem`: never fails, idempotent. -/
def Storage.removeItem (st : Storage) (k : String) : Storage :=
  { st with items := st.items.filter (fun kv => kv.1 != k) }

/-- Options object accepted by `AdvancedCacheManager.set`, with the
`metadata` object abstracted to its serialized byte size. -/
structure SetOptions where
  expires : Option Nat := none
  ttl : Option Nat := none
  priority : Option Nat := none
  version : Option String := none
  tags : Option (List String) := none
  metadataBytes : Option Nat := none
deriving DecidableEq

/-- Options object accepted by `AdvancedCacheManager.get`. -/
structure GetOptions where
  version : Option String := none
deriving DecidableEq

namespace AdvancedCacheManager

/-- Constructor field `this.cachePrefix` (`src/js/caching.js` line 3). -/
def cachePrefix : String := "cosmos_connect_"

/-- Constructor field `this.maxCacheSize`: 50MB (line 4). -/
def maxCacheSize : Nat := 50 * 1024 * 1024

/-- Constructor field `this.cachePriorities` in object-literal order
(lines 5-15); `Object.entries` iterates string keys in insertion order. -/
def cachePriorities : List (String × Nat) :=
  [("user_preferences", 100), ("favorites", 90), ("recent_searches", 80),
   ("apod_data", 70), ("mars_weather", 60), ("asteroids", 50),
   ("space_weather", 40), ("rover_photos", 30), ("exoplanets", 20)]

/-- First pattern of `cachePriorities` contained in `key`, else the
default 10 (`getCachePriority`, lines 92-99). -/
def priorityLookup (key : String) : List (String × Nat) → Nat
  | [] => 10
  | (pat, p) :: rest => if jsIncludes key pat then p else priorityLookup key rest

/-- Method `getCachePriority` (lines 92-99). -/
def getCachePriority (key : String) : Nat :=
  priorityLookup key cachePriorities

/-- Method `calculateSize` (lines 101-103): the Blob byte size of
`JSON.stringify(data)`; `none` models the `TypeError` thrown by
`JSON.stringify` on a cyclic value. -/
def calculateSize (data : Option Nat) : Option Nat :=
  data

/-- The cache entry object literal built at the top of `set`
(lines 28-37), given the already-computed serialized size `sz` of the
payload. -/
def mkCacheEntry (now : Nat) (key : String) (sz : Nat) (opts : SetOptions) : CacheEntry :=
  { dataBytes := sz
  , timestamp := now
  , expires := jsOrNum opts.expires (now + jsOrNum opts.ttl 3600000)
  , priority := jsOrNum opts.priority (getCachePriority key)
  , size := sz
  , version := jsOrStr opts.version "1.0"
  , tags := opts.tags.getD []
  , metadataBytes := opts.metadataBytes.getD 2
  , lastAccessed := none }

/-- One row of the listing built by `getStorageInfo` (lines 121-127):
the caller-visible key (stored key with the first occurrence of the
prefix replaced by the empty string, which for a prefixed key is the
suffix), the Blob size of the stored value string, and
`lastAccessed || timestamp`. -/
structure InfoItem where
  key : String
  size : Nat
  expires : Nat
  priority : Nat
  lastAccessed : Nat
deriving DecidableEq

/-- Stored key with the namespace removed, the effect of
`key.replace(this.cachePrefix, '')` on a key that starts with the
prefix. -/
def stripKey (k : String) : String :=
  String.mk (k.data.drop cachePrefix.data.length)

/-- The `InfoItem` that `getStorageInfo` pushes for a stored pair. -/
def infoOf (kv : String × CacheEntry) : InfoItem :=
  { key := stripKey kv.1
  , size := entryJsonSize kv.2
  , expires := kv.2.expires
  , priority := kv.2.priority
  , lastAccessed := jsOrNum kv.2.lastAccessed kv.2.timestamp }

/-- The rows `getStorageInfo` collects in storage order: one per stored
key that starts with the cache prefix. -/
def collectItems (st : Storage) : List InfoItem :=
  (st.items.filter (fun kv => jsStartsWith kv.1 cachePrefix)).map infoOf

/-- Comparator `(a, b) => b.priority - a.priority` of `getStorageInfo`
(line 138) as the order it sorts into: descending priority. -/
def priorityDescOrder (a b : InfoItem) : Prop :=
  b.priority ≤ a.priority

instance decPriorityDescOrder : DecidableRel priorityDescOrder := fun a b =>
  inferInstanceAs (Decidable (b.priority ≤ a.priority))

instance : IsTotal InfoItem priorityDescOrder :=
  ⟨fun a b => Nat.le_total b.priority a.priority⟩

instance : IsTrans InfoItem priorityDescOrder :=
  ⟨fun _ _ _ h h' => Nat.le_trans h' h⟩

/-- Eviction comparator of `enforceStorageLimit` (lines 176-181) as the
order it sorts into: ascending priority, then ascending last access. -/
def evictionOrder (a b : InfoItem) : Prop :=
  a.priority < b.priority ∨ (a.priority = b.priority ∧ a.lastAccessed ≤ b.lastAccessed)

instance decEvictionOrder : DecidableRel evictionOrder := fun _ _ =>
  inferInstanceAs (Decidable (_ ∨ _))

instance : IsTotal InfoItem evictionOrder :=
  ⟨fun a b => by
    rcases Nat.lt_trichotomy a.priority b.priority with h | h | h
    · exact Or.inl (Or.inl h)
    · rcases Nat.le_total a.lastAccessed b.lastAccessed with h' | h'
      · exact Or.inl (Or.inr ⟨h, h'⟩)
      · exact Or.inr (Or.inr ⟨h.symm, h'⟩)
    · exact Or.inr (Or.inl h)⟩

instance : IsTrans InfoItem evictionOrder :=
  ⟨fun a b c h h' => by
    rcases h with h | ⟨he, hl⟩
    · rcases h' with h' | ⟨he', _⟩
      · exact Or.inl (Nat.lt_trans h h')
      · exact Or.inl (he' ▸ h)
    · rcases h' with h' | ⟨he', hl'⟩
      · exact Or.inl (he ▸ h')
      · exact Or.inr ⟨he.trans he', hl.trans hl'⟩⟩

/-- Result record of `getStorageInfo` (lines 135-141).  The derived
float `utilizationPercent` is not modelled; no claim mentions it. -/
structure StorageInfo where
  totalSize : Nat
  itemCount : Nat
  items : List InfoItem
  maxSize : Nat
deriving DecidableEq

/-- Method `getStorageInfo` (lines 105-142): walks the store, collects
one row per prefixed key, sums the stored value sizes, and returns the
rows sorted by descending priority (stable comparator sort). -/
def getStorageInfo (st : Storage) : StorageInfo :=
  let collected := collectItems st
  { totalSize := (collected.map (fun it => it.size)).sum
  , itemCount := collected.length
  , items := List.insertionSort priorityDescOrder collected
  , maxSize := maxCacheSize }

/-- The eviction target `this.maxCacheSize * 0.8` (line 184): the IEEE
double product `52428800 * 0.8` is exactly the integer `41943040`. -/
def budget80 : Nat := maxCacheSize * 8 / 10

/-- The removal loop of `enforceStorageLimit` (lines 186-191): walk the
sorted candidates, stop once `freedSize >= targetReduction`, otherwise
remove the entry and accumulate its size. -/
def evictLoop : Storage → List InfoItem → Nat → Nat → Storage
  | st, [], _, _ => st
  | st, item :: rest, freed, target =>
    if freed ≥ target then st
    else evictLoop (st.removeItem (cachePrefix ++ item.key)) rest (freed + item.size) target

/-- Method `enforceStorageLimit` (lines 169-194): no-op while the total
is within `maxCacheSize`, else re-sort the listing by the eviction
comparator (a second stable in-place sort of the priority-sorted rows)
and run the removal loop against `totalSize - 0.8 * maxCacheSize`. -/
def enforceStorageLimit (st : Storage) : Storage :=
  let info := getStorageInfo st
  if info.totalSize ≤ maxCacheSize then st
  else
    evictLoop st (List.insertionSort evictionOrder info.items) 0 (info.totalSize - budget80)

/-- Method `clearLowPriorityCache` (lines 196-203): remove every listed
entry of priority strictly below 50. -/
def clearLowPriorityCache (st : Storage) : Storage :=
  ((getStorageInfo st).items.filter (fun it => decide (it.priority < 50))).foldl
    (fun s it => s.removeItem (cachePrefix ++ it.key)) st

/-- Method `set` (lines 27-54).  `calculateSize` runs outside the
`try` block, so its `none` (a serialization `TypeError`) escapes as
`none` here; inside the `try`, a failed `setItem` triggers
`clearLowPriorityCache` and exactly one retry, and only the successful
first write is followed by `enforceStorageLimit`. -/
def set (now : Nat) (st : Storage) (key : String) (data : Option Nat) (opts : SetOptions) :
    Option (Bool × Storage) :=
  match calculateSize data with
  | none => none
  | some sz =>
    let e := mkCacheEntry now key sz opts
    match st.setItem (cachePrefix ++ key) e with
    | some st1 => some (true, enforceStorageLimit st1)
    | none =>
      let st1 := clearLowPriorityCache st
      match st1.setItem (cachePrefix ++ key) e with
      | some st2 => some (true, st2)
      | none => some (false, st1)

/-- Method `delete` (lines 87-89). -/
def delete (st : Storage) (key : String) : Storage :=
  st.removeItem (cachePrefix ++ key)

/-- The truthy version-mismatch test of `get` (line 70):
`options.version && cacheEntry.version !== options.version`. -/
def versionMismatch (opts : GetOptions) (e : CacheEntry) : Bool :=
  match opts.version with
  | none => false
  | some v => if v = "" then false else decide (e.version ≠ v)

/-- Method `get` (lines 56-85): miss on an absent key; an expired or
version-mismatched entry is deleted and missed; otherwise the entry is
rewritten with `lastAccessed := now`, and if that write-back throws the
`catch` block deletes the entry and returns a miss. -/
def get (now : Nat) (st : Storage) (key : String) (opts : GetOptions) :
    Option Nat × Storage :=
  match st.getItem (cachePrefix ++ key) with
  | none => (none, st)
  | some e =>
    if now > e.expires then (none, delete st key)
    else if versionMismatch opts e then (none, delete st key)
    else
      let e' := { e with lastAccessed := some now }
      match st.setItem (cachePrefix ++ key) e' with
      | some st' => (some e'.dataBytes, st')
      | none => (none, delete st key)

/-- Method `clearCache` (lines 205-220): collect every stored key that
starts with the cache prefix and, when a truthy pattern is given,
contains it; remove them all; return how many were collected. -/
def clearCache (st : Storage) (pattern : Option String) : Nat × Storage :=
  let keysToDelete :=
    (st.items.map (fun kv => kv.1)).filter (fun k =>
      jsStartsWith k cachePrefix &&
        (match pattern with
         | none => true
         | some p => if p = "" then true else jsIncludes k p))
  (keysToDelete.length, keysToDelete.foldl Storage.removeItem st)

end AdvancedCacheManager

/-- State of the `RateLimiter` class (`src/unnamed/part_001` lines
53-91): the configured quota and window, and the persisted array of
request timestamps.  Timestamps are integers (milliseconds). -/
structure RateLimiter where
  maxRequests : Nat
  windowMs : Int
  requests : List Int
deriving DecidableEq

namespace RateLimiter

/-- Method `cleanOldRequests` (lines 61-67): keep exactly the
timestamps with `now - timestamp < windowMs`. -/
def cleanOldRequests (now : Int) (rl : RateLimiter) : RateLimiter :=
  { rl with requests := rl.requests.filter (fun t => decide (now - t < rl.windowMs)) }

/-- Method `canMakeRequest` (lines 69-72): prune, then compare the
remaining count against the quota.  The pruned state is returned
alongside, since the method persists it. -/
def canMakeRequest (now : Int) (rl : RateLimiter) : Bool × RateLimiter :=
  let rl' := cleanOldRequests now rl
  (decide (rl'.requests.length < rl.maxRequests), rl')

/-- Method `recordRequest` (lines 74-77): append `now`. -/
def recordRequest (now : Int) (rl : RateLimiter) : RateLimiter :=
  { rl with requests := rl.requests ++ [now] }

/-- Method `getTimeUntilReset` (lines 79-85): it does not prune; on a
nonempty list it takes `Math.min` of all stored timestamps — stale ones
included — and floors the result at 0. -/
def getTimeUntilReset (now : Int) (rl : RateLimiter) : Int :=
  match rl.requests with
  | [] => 0
  | t :: ts => max 0 (rl.windowMs - (now - ts.foldl min t))

/-- Method `getRemainingRequests` (lines 87-90): prune, then
`max(0, maxRequests - count)`; the pruned state is persisted. -/
def getRemainingRequests (now : Int) (rl : RateLimiter) : Nat × RateLimiter :=
  let rl' := cleanOldRequests now rl
  (rl.maxRequests - rl'.requests.length, rl')

end RateLimiter

/-! Helper lemmas about the store model. -/

theorem stringEqOfData {a b : String} (h : a.data = b.data) : a = b := by
  cases a; cases b; simp_all

/-- A key that starts with the cache prefix is the prefix followed by its
stripped remainder. -/
theorem prefixAppendStrip {k : String}
    (h : jsStartsWith k AdvancedCacheManager.cachePrefix = true) :
    AdvancedCacheManager.cachePrefix ++ AdvancedCacheManager.stripKey k = k := by
  have hp : AdvancedCacheManager.cachePrefix.data <+: k.data :=
    List.isPrefixOf_iff_prefix.mp h
  obtain ⟨t, ht⟩ := hp
  apply stringEqOfData
  rw [String.data_append]
  show AdvancedCacheManager.cachePrefix.data
      ++ (AdvancedCacheManager.stripKey k).data = k.data
  unfold AdvancedCacheManager.stripKey
  rw [← ht, List.drop_left]

/-- Prepending the cache prefix always yields a key that starts with it. -/
theorem jsStartsWith_append (x : String) :
    jsStartsWith (AdvancedCacheManager.cachePrefix ++ x) AdvancedCacheManager.cachePrefix = true := by
  unfold jsStartsWith
  rw [String.data_append]
  exact List.isPrefixOf_iff_prefix.mpr (List.prefix_append _ _)

theorem storeGet_filter_ne_self (l : List (String × CacheEntry)) (k : String) :
    storeGet (l.filter (fun kv => kv.1 != k)) k = none := by
  induction l with
  | nil => rfl
  | cons kv rest ih =>
    rw [List.filter_cons]
    by_cases h : kv.1 = k
    · rw [if_neg (by simp [h])]
      exact ih
    · rw [if_pos (by simp [h])]
      show (if kv.1 = k then some kv.2
        else storeGet (rest.filter (fun kv => kv.1 != k)) k) = none
      rw [if_neg h]
      exact ih

theorem storeGet_filter_ne_other (l : List (String × CacheEntry)) {k k' : String}
    (h : k' ≠ k) : storeGet (l.filter (fun kv => kv.1 != k)) k' = storeGet l k' := by
  induction l with
  | nil => rfl
  | cons kv rest ih =>
    rw [List.filter_cons]
    by_cases hk : kv.1 = k
    · rw [if_neg (by simp [hk])]
      have hkk' : kv.1 ≠ k' := by rw [hk]; exact fun e => h e.symm
      show storeGet (rest.filter (fun kv => kv.1 != k)) k'
        = if kv.1 = k' then some kv.2 else storeGet rest k'
      rw [if_neg hkk']
      exact ih
    · rw [if_pos (by simp [hk])]
      show (if kv.1 = k' then some kv.2
          else storeGet (rest.filter (fun kv => kv.1 != k)) k')
        = if kv.1 = k' then some kv.2 else storeGet rest k'
      by_cases hk' : kv.1 = k'
      · rw [if_pos hk', if_pos hk']
      · rw [if_neg hk', if_neg hk']
        exact ih

theorem mem_of_storeGet {l : List (String × CacheEntry)} {k : String} {e : CacheEntry}
    (h : storeGet l k = some e) : (k, e) ∈ l := by
  induction l with
  | nil => simp [storeGet] at h
  | cons kv rest ih =>
    obtain ⟨k1, e1⟩ := kv
    by_cases hk : k1 = k
    · subst hk
      have he : some e1 = some e := by simpa [storeGet] using h
      injection he with he
      subst he
      exact List.mem_cons_self _ _
    · have h' : storeGet rest k = some e := by simpa [storeGet, hk] using h
      exact List.mem_cons_of_mem _ (ih h')

theorem storeGet_of_mem {l : List (String × CacheEntry)} {k : String} {e : CacheEntry}
    (hnd : (l.map Prod.fst).Nodup) (h : (k, e) ∈ l) : storeGet l k = some e := by
  induction l with
  | nil => simp at h
  | cons kv rest ih =>
    rcases List.mem_cons.mp h with h | h
    · cases h
      simp [storeGet]
    · have hk : kv.1 ≠ k := by
        intro hk
        have : k ∈ rest.map Prod.fst := List.mem_map_of_mem Prod.fst h
        rw [List.map_cons, List.nodup_cons, hk] at hnd
        exact hnd.1 this
      simp only [storeGet, hk, ite_false]
      exact ih (List.nodup_cons.mp (by simpa using hnd)).2 h

/-! Claim C2: serialization exceptions and the boundary of `set`. -/

/-- C2 counterexample: a `set` call with a value on which
`JSON.stringify` throws (a cyclic object, modelled as `none`) does not
return a boolean — the exception escapes `set`, because `calculateSize`
runs outside the `try` block. -/
theorem claim2_counterexample :
    AdvancedCacheManager.set 0 ⟨100, []⟩ "k" none {} = none := rfl

/-- C2 (amended): for every serializable value, `set` returns a boolean
and never lets an exception escape; only a serialization exception
raised in `calculateSize` (outside the `try`) escapes `set`. -/
theorem claim2_set_serializable_returns_bool (now : Nat) (st : Storage) (key : String)
    (n : Nat) (opts : SetOptions) :
    (AdvancedCacheManager.set now st key (some n) opts).isSome = true := by
  unfold AdvancedCacheManager.set AdvancedCacheManager.calculateSize
  cases h1 : st.setItem (AdvancedCacheManager.cachePrefix ++ key)
      (AdvancedCacheManager.mkCacheEntry now key n opts) with
  | some st1 => simp [h1]
  | none =>
    cases h2 : (AdvancedCacheManager.clearLowPriorityCache st).setItem
        (AdvancedCacheManager.cachePrefix ++ key)
        (AdvancedCacheManager.mkCacheEntry now key n opts) with
    | some st2 => simp [h1, h2]
    | none => simp [h1, h2]

/-! Claim C3: `getTimeUntilReset` and stale timestamps. -/

theorem foldl_min_le_init (l : List Int) : ∀ c : Int, l.foldl min c ≤ c := by
  induction l with
  | nil => intro c; simp
  | cons d l' ih => intro c; exact le_trans (ih (min c d)) (min_le_left c d)

theorem foldl_min_le {ts : List Int} {a x : Int} (h : x ∈ a :: ts) :
    ts.foldl min a ≤ x := by
  induction ts generalizing a with
  | nil =>
    have hx : x = a := by simpa using h
    simp [hx]
  | cons b rest ih =>
    rcases List.mem_cons.mp h with h1 | h1
    · subst h1
      exact le_trans (foldl_min_le_init rest (min x b)) (min_le_left x b)
    · rcases List.mem_cons.mp h1 with h2 | h2
      · subst h2
        exact le_trans (foldl_min_le_init rest (min a x)) (min_le_right a x)
      · exact ih (List.mem_cons_of_mem _ h2)

/-- C3 counterexample: with `windowMs = 1000` and stored timestamps
`[0, 500]` at `now = 1200`, the timestamp 0 is stale and 500 is in the
window; the claim predicts `windowMs - (now - 500) = 300` after
pruning, but the code does not prune and returns 0, computed from the
stale oldest timestamp. -/
theorem claim3_counterexample :
    RateLimiter.getTimeUntilReset 1200
        { maxRequests := 3, windowMs := 1000, requests := [0, 500] } = 0
      ∧ ((1000 : Int) - (1200 - 500)) ≠ 0 := by decide

/-- C3 (amended): `getTimeUntilReset` does not prune; it returns 0 on no
timestamps and otherwise `max 0 (windowMs - (now - oldest))` over all
stored timestamps, stale ones included, so the presence of any stale
timestamp forces the result to 0. -/
theorem claim3_stale_timestamp_forces_zero (now : Int) (rl : RateLimiter) (t : Int)
    (ht : t ∈ rl.requests) (hstale : rl.windowMs ≤ now - t) :
    RateLimiter.getTimeUntilReset now rl = 0 := by
  unfold RateLimiter.getTimeUntilReset
  cases hreq : rl.requests with
  | nil => rfl
  | cons u ts =>
    rw [hreq] at ht
    have hold : ts.foldl min u ≤ t := foldl_min_le ht
    have : rl.windowMs - (now - ts.foldl min u) ≤ 0 := by omega
    simp [max_eq_left this]

theorem claim3_witness :
    RateLimiter.getTimeUntilReset 1200
      { maxRequests := 3, windowMs := 1000, requests := [0, 500] } = 0 :=
  claim3_stale_timestamp_forces_zero 1200
    { maxRequests := 3, windowMs := 1000, requests := [0, 500] } 0
    (by decide) (by decide)

/-! Claim C4: the `expiresAt > createdAt` invariant. -/

/-- C4 counterexample: a `set` call that supplies an explicit
`options.expires` in the past stores an entry with
`expires < timestamp`, refuting the invariant for entries produced with
an explicit expiry. -/
theorem claim4_counterexample :
    ((AdvancedCacheManager.set 2 ⟨1000, []⟩ "k" (some 5) { expires := some 1 }).map
        (fun r => (storeGet r.2.items ("cosmos_connect_" ++ "k")).map
          (fun e => decide (e.timestamp < e.expires))))
      = some (some false) := by decide

/-- C4 (amended): every entry built by `set` without a truthy
`options.expires` (absent, or the falsy 0) satisfies
`expiresAt > createdAt`; a supplied nonzero `options.expires` is stored
verbatim and may violate it. -/
theorem claim4_expires_after_creation (now : Nat) (key : String) (sz : Nat)
    (opts : SetOptions) (h : opts.expires = none ∨ opts.expires = some 0) :
    (AdvancedCacheManager.mkCacheEntry now key sz opts).timestamp
      < (AdvancedCacheManager.mkCacheEntry now key sz opts).expires := by
  have hpos : 0 < jsOrNum opts.ttl 3600000 := by
    unfold jsOrNum
    cases hto : opts.ttl with
    | none =>
      show (0 : Nat) < 3600000
      omega
    | some v =>
      show 0 < if v = 0 then 3600000 else v
      by_cases hv : v = 0
      · rw [if_pos hv]; omega
      · rw [if_neg hv]; omega
  show now < jsOrNum opts.expires (now + jsOrNum opts.ttl 3600000)
  rcases h with h | h
  · rw [h]
    show now < now + jsOrNum opts.ttl 3600000
    omega
  · rw [h]
    show now < now + jsOrNum opts.ttl 3600000
    omega

theorem claim4_witness :
    (AdvancedCacheManager.mkCacheEntry 5 "k" 3 {}).timestamp
      < (AdvancedCacheManager.mkCacheEntry 5 "k" 3 {}).expires :=
  claim4_expires_after_creation 5 "k" 3 {} (Or.inl rfl)

/-! Claim C6: the sliding rate-limit window. -/

/-- C6: `canMakeRequest` prunes every timestamp `t` with
`now - t ≥ windowMs` and answers `count < maxRequests` on the rest; in
the concrete scenario (`maxRequests = 3`, `windowMs = 1000`, three
requests recorded at t = 0) it answers false at t = 500 and true again
at t = 1001. -/
theorem claim6_sliding_window (now : Int) (rl : RateLimiter) :
    ((RateLimiter.canMakeRequest now rl).2.requests
        = rl.requests.filter (fun t => decide (now - t < rl.windowMs))
      ∧ ((RateLimiter.canMakeRequest now rl).1 = true
        ↔ (rl.requests.filter (fun t => decide (now - t < rl.windowMs))).length
            < rl.maxRequests))
    ∧ ((RateLimiter.canMakeRequest 500
          (RateLimiter.recordRequest 0 (RateLimiter.recordRequest 0 (RateLimiter.recordRequest 0
            { maxRequests := 3, windowMs := 1000, requests := [] })))).1 = false
      ∧ (RateLimiter.canMakeRequest 1001
          (RateLimiter.recordRequest 0 (RateLimiter.recordRequest 0 (RateLimiter.recordRequest 0
            { maxRequests := 3, windowMs := 1000, requests := [] })))).1 = true) := by
  refine ⟨⟨rfl, ?_⟩, by decide, by decide⟩
  simp [RateLimiter.canMakeRequest, RateLimiter.cleanOldRequests]

/-! Claim C7: the sweep-and-retry path of `set`. -/

/-- C7: when the underlying storage write fails, `set` runs one
low-priority eviction pass, retries the write exactly once, and when the
retry also fails it returns `false` without throwing; the resulting
store is the post-sweep store, with the new value not cached. -/
theorem claim7_sweep_and_retry (now : Nat) (st : Storage) (key : String) (n : Nat)
    (opts : SetOptions)
    (h1 : st.setItem (AdvancedCacheManager.cachePrefix ++ key)
        (AdvancedCacheManager.mkCacheEntry now key n opts) = none)
    (h2 : (AdvancedCacheManager.clearLowPriorityCache st).setItem
        (AdvancedCacheManager.cachePrefix ++ key)
        (AdvancedCacheManager.mkCacheEntry now key n opts) = none) :
    AdvancedCacheManager.set now st key (some n) opts
      = some (false, AdvancedCacheManager.clearLowPriorityCache st) := by
  unfold AdvancedCacheManager.set AdvancedCacheManager.calculateSize
  simp [h1, h2]

theorem claim7_witness :
    AdvancedCacheManager.set 0 ⟨0, []⟩ "k" (some 5) {}
      = some (false, AdvancedCacheManager.clearLowPriorityCache ⟨0, []⟩) :=
  claim7_sweep_and_retry 0 ⟨0, []⟩ "k" 5 {} (by decide) (by decide)

/-! Claim C9: falsy option values fall back to defaults. -/

/-- C9: `options.priority = 0` and `options.ttl = 0` are discarded by
the truthiness defaulting in `set`: priority 0 is replaced by the
key-pattern-derived priority and ttl 0 by the one-hour default expiry. -/
theorem claim9_zero_options_are_discarded (now : Nat) (key : String) (sz : Nat)
    (opts : SetOptions) :
    (AdvancedCacheManager.mkCacheEntry now key sz { opts with priority := some 0 }).priority
        = AdvancedCacheManager.getCachePriority key
      ∧ (AdvancedCacheManager.mkCacheEntry now key sz
            { opts with ttl := some 0, expires := none }).expires = now + 3600000 := by
  constructor <;> simp [AdvancedCacheManager.mkCacheEntry, jsOrNum]

/-! Claim C5: expired entries are deleted on the read path. -/

/-- C5: a read at any `now` strictly past the stored expiry returns a
miss, synchronously deletes the entry, and the entry no longer appears
in a subsequent `getStorageInfo` listing. -/
theorem claim5_expired_entry_deleted_on_read (now : Nat) (st : Storage) (key : String)
    (e : CacheEntry) (opts : GetOptions)
    (hget : st.getItem (AdvancedCacheManager.cachePrefix ++ key) = some e)
    (hexp : now > e.expires) :
    AdvancedCacheManager.get now st key opts = (none, AdvancedCacheManager.delete st key)
      ∧ (AdvancedCacheManager.delete st key).getItem
          (AdvancedCacheManager.cachePrefix ++ key) = none
      ∧ ∀ it ∈ (AdvancedCacheManager.getStorageInfo
          (AdvancedCacheManager.delete st key)).items, it.key ≠ key := by
  refine ⟨?_, ?_, ?_⟩
  · unfold AdvancedCacheManager.get
    rw [hget]
    simp [hexp]
  · exact storeGet_filter_ne_self st.items _
  · intro it hit hkey
    have hmem : it ∈ AdvancedCacheManager.collectItems (AdvancedCacheManager.delete st key) :=
      (List.perm_insertionSort AdvancedCacheManager.priorityDescOrder _).mem_iff.mp hit
    unfold AdvancedCacheManager.collectItems at hmem
    rcases List.mem_map.mp hmem with ⟨kv, hkv, hinfo⟩
    rcases List.mem_filter.mp hkv with ⟨hkv', hstart⟩
    have hne : kv.1 ≠ AdvancedCacheManager.cachePrefix ++ key := by
      rcases List.mem_filter.mp hkv' with ⟨_, hne'⟩
      simpa using hne'
    apply hne
    have hstrip : AdvancedCacheManager.stripKey kv.1 = key := by
      rw [← hkey, ← hinfo]
      rfl
    rw [← prefixAppendStrip hstart, hstrip]

theorem claim5_witness :
    AdvancedCacheManager.get 200 ⟨1000, [("cosmos_connect_k", ⟨5, 0, 100, 10, 5, "1.0", [], 2, none⟩)]⟩ "k" {}
        = (none, AdvancedCacheManager.delete
            ⟨1000, [("cosmos_connect_k", ⟨5, 0, 100, 10, 5, "1.0", [], 2, none⟩)]⟩ "k")
      ∧ (AdvancedCacheManager.delete
            ⟨1000, [("cosmos_connect_k", ⟨5, 0, 100, 10, 5, "1.0", [], 2, none⟩)]⟩ "k").getItem
          (AdvancedCacheManager.cachePrefix ++ "k") = none
      ∧ ∀ it ∈ (AdvancedCacheManager.getStorageInfo (AdvancedCacheManager.delete
            ⟨1000, [("cosmos_connect_k", ⟨5, 0, 100, 10, 5, "1.0", [], 2, none⟩)]⟩ "k")).items,
          it.key ≠ "k" :=
  claim5_expired_entry_deleted_on_read 200
    ⟨1000, [("cosmos_connect_k", ⟨5, 0, 100, 10, 5, "1.0", [], 2, none⟩)]⟩ "k"
    ⟨5, 0, 100, 10, 5, "1.0", [], 2, none⟩ {} (by decide) (by decide)

/-! Claim C8: a failing write-back on the read path destroys a valid entry. -/

/-- C8: when the `lastAccessed` write-back of `get` throws on a stored,
unexpired, version-matching entry, the `catch` block deletes the entry
and `get` reports a miss: a read can destroy a valid cached entry. -/
theorem claim8_writeback_failure_destroys_entry (now : Nat) (st : Storage) (key : String)
    (e : CacheEntry) (opts : GetOptions)
    (hget : st.getItem (AdvancedCacheManager.cachePrefix ++ key) = some e)
    (hfresh : ¬ now > e.expires)
    (hver : AdvancedCacheManager.versionMismatch opts e = false)
    (hwb : st.setItem (AdvancedCacheManager.cachePrefix ++ key)
        { e with lastAccessed := some now } = none) :
    AdvancedCacheManager.get now st key opts = (none, AdvancedCacheManager.delete st key)
      ∧ (AdvancedCacheManager.delete st key).getItem
          (AdvancedCacheManager.cachePrefix ++ key) = none := by
  constructor
  · unfold AdvancedCacheManager.get
    rw [hget]
    simp [hfresh, hver, hwb]
  · exact storeGet_filter_ne_self st.items _

theorem claim8_witness :
    AdvancedCacheManager.get 50 ⟨121, [("cosmos_connect_k", ⟨5, 0, 100, 10, 5, "1.0", [], 2, none⟩)]⟩ "k" {}
        = (none, AdvancedCacheManager.delete
            ⟨121, [("cosmos_connect_k", ⟨5, 0, 100, 10, 5, "1.0", [], 2, none⟩)]⟩ "k")
      ∧ (AdvancedCacheManager.delete
            ⟨121, [("cosmos_connect_k", ⟨5, 0, 100, 10, 5, "1.0", [], 2, none⟩)]⟩ "k").getItem
          (AdvancedCacheManager.cachePrefix ++ "k") = none :=
  claim8_writeback_failure_destroys_entry 50
    ⟨121, [("cosmos_connect_k", ⟨5, 0, 100, 10, 5, "1.0", [], 2, none⟩)]⟩ "k"
    ⟨5, 0, 100, 10, 5, "1.0", [], 2, none⟩ {} (by decide) (by decide) (by decide) (by decide)

/-! Claim C10: `clearCache` patterns are tested against the prefixed key. -/

theorem foldl_removeItem_items (ks : List String) (st : Storage) :
    (ks.foldl Storage.removeItem st).items
      = st.items.filter (fun kv => !(ks.contains kv.1)) := by
  induction ks generalizing st with
  | nil => simp
  | cons k ks ih =>
    rw [List.foldl_cons, ih]
    show (st.items.filter (fun kv => kv.1 != k)).filter (fun kv => !(ks.contains kv.1)) = _
    rw [List.filter_filter]
    apply List.filter_congr
    intro kv _
    simp only [List.contains_cons, Bool.not_or, bne]
    rw [Bool.and_comm]

/-- C10: any pattern that occurs inside the fixed namespace
`cosmos_connect_` matches every prefixed storage key, so
`clearCache(pattern)` removes every cache entry even though no
caller-visible key contains the pattern, and the returned count is the
number of entries removed. -/
theorem claim10_pattern_matches_namespace (st : Storage) (p : String)
    (hp : p.data <:+: AdvancedCacheManager.cachePrefix.data) :
    (AdvancedCacheManager.clearCache st (some p)).1
        = (st.items.filter (fun kv => jsStartsWith kv.1 AdvancedCacheManager.cachePrefix)).length
      ∧ (AdvancedCacheManager.clearCache st (some p)).2.items
        = st.items.filter (fun kv => !(jsStartsWith kv.1 AdvancedCacheManager.cachePrefix)) := by
  have hmatch : ∀ k : String, jsStartsWith k AdvancedCacheManager.cachePrefix = true →
      jsIncludes k p = true := by
    intro k hk
    unfold jsIncludes
    have h1 : AdvancedCacheManager.cachePrefix.data <+: k.data :=
      List.isPrefixOf_iff_prefix.mp hk
    exact decide_eq_true_eq.mpr (hp.trans h1.isInfix)
  have hpred : ∀ k : String,
      (jsStartsWith k AdvancedCacheManager.cachePrefix &&
        (if p = "" then true else jsIncludes k p))
        = jsStartsWith k AdvancedCacheManager.cachePrefix := by
    intro k
    cases hk : jsStartsWith k AdvancedCacheManager.cachePrefix
    · rfl
    · by_cases hpe : p = ""
      · simp [hpe]
      · simp [hpe, hmatch k hk]
  unfold AdvancedCacheManager.clearCache
  have hkeys : ((st.items.map (fun kv => kv.1)).filter (fun k =>
        jsStartsWith k AdvancedCacheManager.cachePrefix &&
          (match some p with
           | none => true
           | some q => if q = "" then true else jsIncludes k q)))
      = (st.items.map (fun kv => kv.1)).filter
          (fun k => jsStartsWith k AdvancedCacheManager.cachePrefix) :=
    List.filter_congr (fun k _ => hpred k)
  constructor
  · show ((st.items.map (fun kv => kv.1)).filter _).length = _
    rw [hkeys, List.filter_map, List.length_map]
    rfl
  · show ((((st.items.map (fun kv => kv.1)).filter (fun k =>
        jsStartsWith k AdvancedCacheManager.cachePrefix &&
          (match some p with
           | none => true
           | some q => if q = "" then true else jsIncludes k q))).foldl
              Storage.removeItem st).items) = _
    rw [hkeys, foldl_removeItem_items]
    apply List.filter_congr
    intro kv hkv
    congr 1
    cases hsw : jsStartsWith kv.1 AdvancedCacheManager.cachePrefix with
    | false =>
      apply Bool.eq_false_iff.mpr
      intro hc
      have hmem := (List.mem_filter.mp (List.elem_iff.mp hc)).2
      rw [hsw] at hmem
      exact Bool.false_ne_true hmem
    | true =>
      exact List.elem_iff.mpr (List.mem_filter.mpr ⟨List.mem_map.mpr ⟨kv, hkv, rfl⟩, hsw⟩)

theorem claim10_witness :
    (AdvancedCacheManager.clearCache
        ⟨1000, [("cosmos_connect_apod_data", ⟨5, 0, 100, 70, 5, "1.0", [], 2, none⟩)]⟩
        (some "cosmos")).1
      = ((⟨1000, [("cosmos_connect_apod_data", ⟨5, 0, 100, 70, 5, "1.0", [], 2, none⟩)]⟩ : Storage).items.filter
          (fun kv => jsStartsWith kv.1 AdvancedCacheManager.cachePrefix)).length
    ∧ (AdvancedCacheManager.clearCache
        ⟨1000, [("cosmos_connect_apod_data", ⟨5, 0, 100, 70, 5, "1.0", [], 2, none⟩)]⟩
        (some "cosmos")).2.items
      = (⟨1000, [("cosmos_connect_apod_data", ⟨5, 0, 100, 70, 5, "1.0", [], 2, none⟩)]⟩ : Storage).items.filter
          (fun kv => !(jsStartsWith kv.1 AdvancedCacheManager.cachePrefix)) :=
  claim10_pattern_matches_namespace
    ⟨1000, [("cosmos_connect_apod_data", ⟨5, 0, 100, 70, 5, "1.0", [], 2, none⟩)]⟩
    "cosmos" (by decide)

/-! Claim C1: characterization of the post-write eviction pass. -/

namespace AdvancedCacheManager

/-- The candidate list the eviction loop of `enforceStorageLimit` walks:
the storage listing re-sorted (a second stable in-place sort of the
priority-descending rows) by the eviction comparator. -/
def sortedCandidates (st : Storage) : List InfoItem :=
  List.insertionSort evictionOrder (getStorageInfo st).items

/-- The reduction target of the eviction pass:
`totalSize - 0.8 * maxCacheSize`. -/
def evictTarget (st : Storage) : Nat :=
  (getStorageInfo st).totalSize - budget80

/-- The entries the removal loop deletes: the shortest prefix of the
candidate list whose cumulative size reaches the remaining target. -/
def evictPrefix : List InfoItem → Nat → List InfoItem
  | _, 0 => []
  | [], _ + 1 => []
  | it :: rest, t + 1 => it :: evictPrefix rest (t + 1 - it.size)

/-- Removal of a list of raw storage keys, in order. -/
def removeKeys (st : Storage) (ks : List String) : Storage :=
  ks.foldl Storage.removeItem st

theorem evictLoop_eq_removeKeys (items : List InfoItem) (st : Storage) (freed target : Nat) :
    evictLoop st items freed target
      = removeKeys st ((evictPrefix items (target - freed)).map
          (fun it => cachePrefix ++ it.key)) := by
  induction items generalizing st freed with
  | nil =>
    cases h : target - freed with
    | zero => rfl
    | succ t => rfl
  | cons it rest ih =>
    by_cases hf : freed ≥ target
    · have h1 : target - freed = 0 := Nat.sub_eq_zero_of_le hf
      unfold evictLoop
      rw [if_pos hf, h1]
      rfl
    · have h1 : target - freed ≠ 0 := by omega
      obtain ⟨t, ht⟩ := Nat.exists_eq_succ_of_ne_zero h1
      unfold evictLoop
      rw [if_neg hf, ih, ht]
      have h2 : target - (freed + it.size) = t + 1 - it.size := by omega
      rw [h2]
      rfl

theorem evictPrefix_prefix (items : List InfoItem) (r : Nat) :
    evictPrefix items r <+: items := by
  induction items generalizing r with
  | nil =>
    cases r with
    | zero => exact List.nil_prefix
    | succ t => exact List.nil_prefix
  | cons it rest ih =>
    cases r with
    | zero => exact List.nil_prefix
    | succ t => exact List.cons_prefix_cons.mpr ⟨rfl, ih _⟩

theorem evictPrefix_sum_ge (items : List InfoItem) (r : Nat)
    (h : r ≤ ((items.map (fun it => it.size)).sum)) :
    r ≤ ((evictPrefix items r).map (fun it => it.size)).sum := by
  induction items generalizing r with
  | nil =>
    cases r with
    | zero => simp
    | succ t => simp at h
  | cons it rest ih =>
    cases r with
    | zero => omega
    | succ t =>
      have hE : evictPrefix (it :: rest) (t + 1)
          = it :: evictPrefix rest (t + 1 - it.size) := rfl
      rw [hE, List.map_cons, List.sum_cons]
      rw [List.map_cons, List.sum_cons] at h
      by_cases hs : t + 1 ≤ it.size
      · omega
      · have hrec := ih (t + 1 - it.size) (by omega)
        omega

theorem evictPrefix_proper_sum_lt (items : List InfoItem) (r : Nat) (Q : List InfoItem)
    (hQ : Q <+: evictPrefix items r) (hne : Q ≠ evictPrefix items r) :
    ((Q.map (fun it => it.size)).sum) < r := by
  induction items generalizing r Q with
  | nil =>
    exfalso
    apply hne
    cases r with
    | zero => exact List.prefix_nil.mp hQ
    | succ t => exact List.prefix_nil.mp hQ
  | cons it rest ih =>
    cases r with
    | zero =>
      exact absurd (List.prefix_nil.mp hQ) hne
    | succ t =>
      have hE : evictPrefix (it :: rest) (t + 1)
          = it :: evictPrefix rest (t + 1 - it.size) := rfl
      rw [hE] at hQ hne
      cases Q with
      | nil => simp
      | cons q Q' =>
        obtain ⟨hq, hQ'⟩ := List.cons_prefix_cons.mp hQ
        subst hq
        have hne' : Q' ≠ evictPrefix rest (t + 1 - q.size) := by
          intro h
          exact hne (by rw [h])
        have hrec := ih (t + 1 - q.size) Q' hQ' hne'
        rw [List.map_cons, List.sum_cons]
        omega

end AdvancedCacheManager

namespace AdvancedCacheManager

/-- Total serialized bytes of the cache entries (prefixed keys) of an
item list; `getStorageInfo` reports exactly this value. -/
def cacheBytes (l : List (String × CacheEntry)) : Nat :=
  ((l.filter (fun kv => jsStartsWith kv.1 cachePrefix)).map
    (fun kv => entryJsonSize kv.2)).sum

theorem cacheBytes_cons (kv : String × CacheEntry) (l : List (String × CacheEntry)) :
    cacheBytes (kv :: l)
      = (if jsStartsWith kv.1 cachePrefix then entryJsonSize kv.2 else 0) + cacheBytes l := by
  unfold cacheBytes
  rw [List.filter_cons]
  cases h : jsStartsWith kv.1 cachePrefix
  · simp
  · simp

theorem getStorageInfo_totalSize (st : Storage) :
    (getStorageInfo st).totalSize = cacheBytes st.items := by
  show ((collectItems st).map (fun it => it.size)).sum = cacheBytes st.items
  unfold collectItems cacheBytes
  rw [List.map_map]
  rfl

theorem mem_keys_storeUpdate {l : List (String × CacheEntry)} {k x : String}
    {e : CacheEntry} (hx : x ∈ (storeUpdate l k e).map Prod.fst) :
    x = k ∨ x ∈ l.map Prod.fst := by
  induction l with
  | nil => simpa [storeUpdate] using hx
  | cons kv rest ih =>
    unfold storeUpdate at hx
    by_cases hk : kv.1 = k
    · rw [if_pos hk] at hx
      rcases List.mem_map.mp hx with ⟨p, hp, hpx⟩
      rcases List.mem_cons.mp hp with h | h
      · subst h
        exact Or.inl hpx.symm
      · exact Or.inr (List.mem_cons_of_mem _ (hpx ▸ List.mem_map_of_mem Prod.fst h))
    · rw [if_neg hk] at hx
      rw [List.map_cons] at hx
      rcases List.mem_cons.mp hx with h | h
      · exact Or.inr (by rw [List.map_cons]; exact h ▸ List.mem_cons_self _ _)
      · rcases ih h with h' | h'
        · exact Or.inl h'
        · exact Or.inr (by rw [List.map_cons]; exact List.mem_cons_of_mem _ h')

theorem storeUpdate_keys_nodup {l : List (String × CacheEntry)} (k : String) (e : CacheEntry)
    (hnd : (l.map Prod.fst).Nodup) : ((storeUpdate l k e).map Prod.fst).Nodup := by
  induction l with
  | nil => simp [storeUpdate]
  | cons kv rest ih =>
    rw [List.map_cons, List.nodup_cons] at hnd
    unfold storeUpdate
    by_cases hk : kv.1 = k
    · rw [if_pos hk, List.map_cons, List.nodup_cons]
      exact ⟨hk ▸ hnd.1, hnd.2⟩
    · rw [if_neg hk, List.map_cons, List.nodup_cons]
      refine ⟨?_, ih hnd.2⟩
      intro hmem
      rcases mem_keys_storeUpdate hmem with h | h
      · exact hk h
      · exact hnd.1 h

theorem setItem_some_items {st : Storage} {k : String} {e : CacheEntry} {st' : Storage}
    (h : st.setItem k e = some st') :
    st'.items = storeUpdate st.items k e := by
  unfold Storage.setItem at h
  by_cases hc : usedBytes (storeUpdate st.items k e) ≤ st.quota
  · rw [if_pos hc] at h
    injection h with h
    rw [← h]
  · rw [if_neg hc] at h
    cases h

theorem cacheBytes_removeItem (l : List (String × CacheEntry)) (k : String) (e : CacheEntry)
    (hnd : (l.map Prod.fst).Nodup) (hmem : (k, e) ∈ l)
    (hsw : jsStartsWith k cachePrefix = true) :
    cacheBytes (l.filter (fun kv => kv.1 != k)) + entryJsonSize e = cacheBytes l := by
  induction l with
  | nil => simp at hmem
  | cons kv rest ih =>
    obtain ⟨k1, e1⟩ := kv
    rw [List.map_cons, List.nodup_cons] at hnd
    by_cases hk : k1 = k
    · subst hk
      have he : e = e1 := by
        rcases List.mem_cons.mp hmem with h | h
        · exact congrArg Prod.snd h
        · exact absurd (List.mem_map_of_mem Prod.fst h) hnd.1
      subst he
      have hrest : rest.filter (fun kv => kv.1 != k1) = rest := by
        apply List.filter_eq_self.mpr
        intro a ha
        have hne : a.1 ≠ k1 := by
          intro hcontra
          have h1 : a.1 ∈ rest.map Prod.fst := List.mem_map_of_mem Prod.fst ha
          rw [hcontra] at h1
          exact hnd.1 h1
        simpa using hne
      rw [List.filter_cons, if_neg (by simp), hrest, cacheBytes_cons, if_pos hsw]
      show cacheBytes rest + entryJsonSize e = entryJsonSize e + cacheBytes rest
      omega
    · have hmem' : (k, e) ∈ rest := by
        rcases List.mem_cons.mp hmem with h | h
        · exfalso
          apply hk
          injection h with h1 h2
          exact h1.symm
        · exact h
      have ih' := ih hnd.2 hmem'
      rw [List.filter_cons, if_pos (by simpa using hk), cacheBytes_cons, cacheBytes_cons]
      omega

theorem cacheBytes_removeKeys (P : List InfoItem) (st : Storage)
    (hnd : (st.items.map Prod.fst).Nodup)
    (hPnd : (P.map (fun it => cachePrefix ++ it.key)).Nodup)
    (hex : ∀ it ∈ P, ∃ e, (cachePrefix ++ it.key, e) ∈ st.items ∧ it.size = entryJsonSize e) :
    cacheBytes ((removeKeys st (P.map (fun it => cachePrefix ++ it.key))).items)
        + ((P.map (fun it => it.size)).sum)
      = cacheBytes st.items := by
  induction P generalizing st with
  | nil => simp [removeKeys]
  | cons it P' ih =>
    obtain ⟨e, hmem, hsize⟩ := hex it (List.mem_cons_self _ _)
    have hstep : removeKeys st ((it :: P').map (fun it => cachePrefix ++ it.key))
        = removeKeys (st.removeItem (cachePrefix ++ it.key))
            (P'.map (fun it => cachePrefix ++ it.key)) := rfl
    rw [hstep]
    have hnd' : ((st.removeItem (cachePrefix ++ it.key)).items.map Prod.fst).Nodup :=
      ((List.filter_sublist st.items).map Prod.fst).nodup hnd
    have hPnd' : (P'.map (fun it => cachePrefix ++ it.key)).Nodup :=
      (List.nodup_cons.mp hPnd).2
    have hKnotin : cachePrefix ++ it.key ∉ P'.map (fun it => cachePrefix ++ it.key) :=
      (List.nodup_cons.mp hPnd).1
    have hex' : ∀ it' ∈ P', ∃ e', (cachePrefix ++ it'.key, e')
        ∈ (st.removeItem (cachePrefix ++ it.key)).items ∧ it'.size = entryJsonSize e' := by
      intro it' hit'
      obtain ⟨e', hmem', hsz'⟩ := hex it' (List.mem_cons_of_mem _ hit')
      refine ⟨e', ?_, hsz'⟩
      have hne : cachePrefix ++ it'.key ≠ cachePrefix ++ it.key := by
        intro hcontra
        exact hKnotin (hcontra ▸ List.mem_map_of_mem (fun it => cachePrefix ++ it.key) hit')
      exact List.mem_filter.mpr ⟨hmem', by simpa using hne⟩
    have ih' := ih (st.removeItem (cachePrefix ++ it.key)) hnd' hPnd' hex'
    have hone : cacheBytes ((st.removeItem (cachePrefix ++ it.key)).items)
        + entryJsonSize e = cacheBytes st.items :=
      cacheBytes_removeItem st.items (cachePrefix ++ it.key) e hnd hmem
        (jsStartsWith_append it.key)
    rw [List.map_cons, List.sum_cons]
    omega

theorem collectItems_rawKeys (st : Storage) :
    (collectItems st).map (fun it => cachePrefix ++ it.key)
      = (st.items.filter (fun kv => jsStartsWith kv.1 cachePrefix)).map Prod.fst := by
  unfold collectItems
  rw [List.map_map]
  apply List.map_congr_left
  intro kv hkv
  have hsw := (List.mem_filter.mp hkv).2
  show cachePrefix ++ stripKey kv.1 = kv.1
  exact prefixAppendStrip hsw

theorem collectItems_mem (st : Storage) (it : InfoItem) (hit : it ∈ collectItems st) :
    ∃ e, (cachePrefix ++ it.key, e) ∈ st.items ∧ it.size = entryJsonSize e := by
  unfold collectItems at hit
  rcases List.mem_map.mp hit with ⟨kv, hkv, hinfo⟩
  rcases List.mem_filter.mp hkv with ⟨hmem, hsw⟩
  refine ⟨kv.2, ?_, ?_⟩
  · have hkeq : cachePrefix ++ it.key = kv.1 := by
      rw [← hinfo]
      exact prefixAppendStrip hsw
    rw [hkeq]
    simpa using hmem
  · rw [← hinfo]
    rfl

theorem sortedCandidates_perm (st : Storage) :
    (sortedCandidates st).Perm (collectItems st) := by
  show (List.insertionSort evictionOrder
      (List.insertionSort priorityDescOrder (collectItems st))).Perm (collectItems st)
  exact (List.perm_insertionSort _ _).trans (List.perm_insertionSort _ _)

theorem sortedCandidates_pairwise (st : Storage) :
    List.Pairwise evictionOrder (sortedCandidates st) :=
  List.sorted_insertionSort evictionOrder _

end AdvancedCacheManager

/-- C1 counterexample: a write of a large low-priority value on top of a
store holding one large high-priority entry pushes the total over the
budget, and the eviction pass then removes the entry written by the very
call — an entry that was not present before the write — while the
pre-existing entry survives.  The removed entries are therefore not
"exactly the lowest-(priority, lastAccessedAt) ones among those present
before the write". -/
theorem claim1_counterexample :
    (AdvancedCacheManager.set 20
        ⟨1000000000,
         [("cosmos_connect_user_preferences",
             AdvancedCacheManager.mkCacheEntry 10 "user_preferences" 30000000 {})]⟩
        "big" (some 30000000) {}).map
        (fun r => (r.1,
          storeGet r.2.items ("cosmos_connect_" ++ "big"),
          (storeGet r.2.items ("cosmos_connect_" ++ "user_preferences")).isSome))
      = some (true, none, true)
    ∧ storeGet
        [("cosmos_connect_user_preferences",
            AdvancedCacheManager.mkCacheEntry 10 "user_preferences" 30000000 {})]
        ("cosmos_connect_" ++ "big") = none := by
  constructor
  · decide
  · decide

open AdvancedCacheManager in
/-- C1 (amended): for every `set` of a serializable value whose first
storage write succeeds and leaves the total serialized size of the
cache entries above `maxCacheSize`, the post-write eviction pass
removes entries in ascending `(priority, lastAccessedAt)` order —
lowest priority first, least recently accessed first among equal
priorities — until the total is at or below 0.8 × maxCacheSize, and
the removed entries are exactly the minimal such prefix of the
eviction order over the entries present after the write, which may
include the entry just written. -/
theorem claim1_eviction_after_overflow (now : Nat) (st : Storage) (key : String) (n : Nat)
    (opts : SetOptions)
    (hnd : (st.items.map Prod.fst).Nodup)
    (stW : Storage)
    (hwrite : st.setItem (cachePrefix ++ key) (mkCacheEntry now key n opts) = some stW)
    (hover : maxCacheSize < (getStorageInfo stW).totalSize) :
    set now st key (some n) opts = some (true, enforceStorageLimit stW)
      ∧ enforceStorageLimit stW
          = removeKeys stW ((evictPrefix (sortedCandidates stW) (evictTarget stW)).map
              (fun it => cachePrefix ++ it.key))
      ∧ (getStorageInfo (enforceStorageLimit stW)).totalSize ≤ budget80
      ∧ List.Pairwise evictionOrder (sortedCandidates stW)
      ∧ evictPrefix (sortedCandidates stW) (evictTarget stW) <+: sortedCandidates stW
      ∧ ∀ Q, Q <+: evictPrefix (sortedCandidates stW) (evictTarget stW)
          → Q ≠ evictPrefix (sortedCandidates stW) (evictTarget stW)
          → ((Q.map (fun it => it.size)).sum) < evictTarget stW := by
  have hitems := setItem_some_items hwrite
  have hndW : (stW.items.map Prod.fst).Nodup := by
    rw [hitems]
    exact storeUpdate_keys_nodup _ _ hnd
  have hperm := sortedCandidates_perm stW
  have hPpre := evictPrefix_prefix (sortedCandidates stW) (evictTarget stW)
  have hndC : ((collectItems stW).map (fun it => cachePrefix ++ it.key)).Nodup := by
    rw [collectItems_rawKeys]
    exact ((List.filter_sublist _).map Prod.fst).nodup hndW
  have hndS : ((sortedCandidates stW).map (fun it => cachePrefix ++ it.key)).Nodup :=
    ((hperm.map _).nodup_iff).mpr hndC
  have hndP : ((evictPrefix (sortedCandidates stW) (evictTarget stW)).map
      (fun it => cachePrefix ++ it.key)).Nodup :=
    ((hPpre.map _).sublist).nodup hndS
  have hex : ∀ it ∈ evictPrefix (sortedCandidates stW) (evictTarget stW),
      ∃ e, (cachePrefix ++ it.key, e) ∈ stW.items ∧ it.size = entryJsonSize e := by
    intro it hit
    exact collectItems_mem stW it (hperm.mem_iff.mp (hPpre.sublist.subset hit))
  have hacct := cacheBytes_removeKeys _ stW hndW hndP hex
  have hsumC : ((collectItems stW).map (fun it => it.size)).sum = cacheBytes stW.items :=
    getStorageInfo_totalSize stW
  have hsumS : ((sortedCandidates stW).map (fun it => it.size)).sum
      = cacheBytes stW.items := by
    rw [(hperm.map (fun it => it.size)).sum_eq]
    exact hsumC
  have htot : (getStorageInfo stW).totalSize = cacheBytes stW.items :=
    getStorageInfo_totalSize stW
  have hb80 : budget80 ≤ maxCacheSize := by decide
  have hsumP : evictTarget stW
      ≤ ((evictPrefix (sortedCandidates stW) (evictTarget stW)).map
          (fun it => it.size)).sum := by
    apply evictPrefix_sum_ge
    rw [hsumS]
    show (getStorageInfo stW).totalSize - budget80 ≤ cacheBytes stW.items
    omega
  have hc2 : enforceStorageLimit stW
      = removeKeys stW ((evictPrefix (sortedCandidates stW) (evictTarget stW)).map
          (fun it => cachePrefix ++ it.key)) := by
    show (if (getStorageInfo stW).totalSize ≤ maxCacheSize then stW
        else evictLoop stW (List.insertionSort evictionOrder (getStorageInfo stW).items) 0
          ((getStorageInfo stW).totalSize - budget80)) = _
    rw [if_neg (by omega)]
    rw [evictLoop_eq_removeKeys]
    rw [Nat.sub_zero]
    rfl
  have hc1 : set now st key (some n) opts = some (true, enforceStorageLimit stW) := by
    unfold AdvancedCacheManager.set AdvancedCacheManager.calculateSize
    simp [hwrite]
  have hc3 : (getStorageInfo (enforceStorageLimit stW)).totalSize ≤ budget80 := by
    rw [hc2, getStorageInfo_totalSize]
    have hT : evictTarget stW = (getStorageInfo stW).totalSize - budget80 := rfl
    omega
  exact ⟨hc1, hc2, hc3, sortedCandidates_pairwise stW, hPpre,
    fun Q hQ hne => evictPrefix_proper_sum_lt _ _ Q hQ hne⟩

theorem claim1_witness :
    (AdvancedCacheManager.getStorageInfo (AdvancedCacheManager.enforceStorageLimit
        ⟨1000000000,
         [("cosmos_connect_user_preferences",
             AdvancedCacheManager.mkCacheEntry 10 "user_preferences" 30000000 {}),
          ("cosmos_connect_big",
             AdvancedCacheManager.mkCacheEntry 20 "big" 30000000 {})]⟩)).totalSize
      ≤ AdvancedCacheManager.budget80 :=
  (claim1_eviction_after_overflow 20
      ⟨1000000000,
       [("cosmos_connect_user_preferences",
           AdvancedCacheManager.mkCacheEntry 10 "user_preferences" 30000000 {})]⟩
      "big" 30000000 {} (by decide)
      ⟨1000000000,
       [("cosmos_connect_user_preferences",
           AdvancedCacheManager.mkCacheEntry 10 "user_preferences" 30000000 {}),
        ("cosmos_connect_big",
           AdvancedCacheManager.mkCacheEntry 20 "big" 30000000 {})]⟩
      (by decide) (by decide)).2.2.1
